import Mathlib

/-!
Verification development for the PasteGo clipboard manager core
(src-tauri/src: db.rs, clipboard.rs, ai.rs, lib.rs).

The Rust code is shallowly embedded: the SQLite-backed store is a list of
rows, machine integers are `Nat`, byte streams are `List Nat`, and the
stateful capture/streaming loops are explicit state-passing functions.
-/

namespace PasteGo

/-! ## Data model (db.rs: `ClipItem`) -/

/-- One row of the `clip_items` table (db.rs `ClipItem`).  `created_at` is an
RFC 3339 timestamp stored as TEXT; SQLite's BINARY collation on valid UTF-8
agrees with Lean's lexicographic `String` order. -/
structure ClipItem where
  id : String
  content : String
  content_hash : String
  clip_type : String
  source_app : Option String
  image_path : Option String
  is_pinned : Bool
  created_at : String
deriving DecidableEq

/-! ## Store operations (db.rs: `Database`) -/

/-- db.rs `Database::insert_clip`: if a row with the same `content_hash`
exists, only bump that row's `created_at` to the submitted item's timestamp
and report `false`; otherwise insert the new row and report `true`. -/
def insert_clip (db : List ClipItem) (item : ClipItem) : List ClipItem × Bool :=
  if db.any (fun r => r.content_hash == item.content_hash) then
    (db.map (fun r =>
      if r.content_hash = item.content_hash then
        { r with created_at := item.created_at } else r), false)
  else
    (db ++ [item], true)

/-- Substring containment: `pat` occurs contiguously in `s`.  Models Rust
`str::contains(&str)` (for ASCII patterns, byte-level and char-level
occurrence coincide on valid UTF-8). -/
def strContains (s pat : String) : Bool := decide (pat.data <:+: s.data)

/-- Rust `str::trim` on a character list (ASCII whitespace). -/
def trimChars (cs : List Char) : List Char :=
  ((cs.dropWhile Char.isWhitespace).reverse.dropWhile Char.isWhitespace).reverse

/-- Rust `str::trim` on a string. -/
def rustTrim (s : String) : String := String.mk (trimChars s.data)

/-- Models the SQL `content LIKE '%search%'` filter of `get_clips`
(SQLite LIKE is ASCII-case-insensitive by default). -/
def likeMatch (content pat : String) : Bool :=
  strContains (content.map Char.toLower) (pat.map Char.toLower)

/-- The comparison realising `ORDER BY is_pinned DESC, created_at DESC`:
`a` may be placed before `b` iff `a` is pinned and `b` is not, or they are
equally pinned and `a`'s timestamp is at least `b`'s. -/
def clipLe (a b : ClipItem) : Bool :=
  if a.is_pinned = b.is_pinned then decide (b.created_at ≤ a.created_at)
  else a.is_pinned

/-- db.rs `Database::get_clips`: optional substring filter on `content`,
optional equality filter on `clip_type` (skipped for `""`/`"all"`), rows
ordered pinned-first then recency-descending, then `OFFSET`/`LIMIT`. -/
def get_clips (db : List ClipItem) (search : Option String)
    (clip_type : Option String) (limit offset : Nat) : List ClipItem :=
  let f1 := match search with
    | some s => if s.isEmpty then db else db.filter (fun r => likeMatch r.content s)
    | none => db
  let f2 := match clip_type with
    | some t => if t.isEmpty || t == "all" then f1
                else f1.filter (fun r => r.clip_type == t)
    | none => f1
  (((f2.mergeSort clipLe).drop offset).take limit)

/-- db.rs `Database::toggle_pin`: flip `is_pinned` on every row whose id
matches (the id is a primary key, so at most one), then read back the new
flag; `none` models the `QueryReturnedNoRows` error when the id is absent. -/
def toggle_pin (db : List ClipItem) (id : String) : List ClipItem × Option Bool :=
  let db' := db.map (fun r =>
    if r.id = id then { r with is_pinned := !r.is_pinned } else r)
  (db', (db'.find? (fun r => r.id == id)).map (fun r => r.is_pinned))

/-- Deletion predicate of the retention sweep: unpinned and strictly older
than the cutoff timestamp. -/
def sweepTarget (cutoff : String) (r : ClipItem) : Bool :=
  r.is_pinned = false && decide (r.created_at < cutoff)

/-- db.rs `Database::clear_old_clips`:
`DELETE FROM clip_items WHERE is_pinned = 0 AND created_at < cutoff`,
returning the number of deleted rows.  The cutoff (now minus `keep_days`)
is taken as a parameter. -/
def clear_old_clips (db : List ClipItem) (cutoff : String) : List ClipItem × Nat :=
  (db.filter (fun r => !(sweepTarget cutoff r)),
   (db.filter (sweepTarget cutoff)).length)

/-! ## Content classifier (clipboard.rs: `detect_type`) -/

/-- The fixed indicator list from clipboard.rs `detect_type`. -/
def code_indicators : List String :=
  ["fn ", "func ", "def ", "class ", "import ", "from ", "#include",
   "const ", "let ", "var ", "function ", "return ", "if (", "for (",
   "while (", "pub fn", "async ", "await ", "=>", "->", "::", "println!",
   "console.log", "System.out", "<?php", "package ", "struct "]

/-- Number of indicator substrings occurring in `s`. -/
def indicatorCount (s : String) : Nat :=
  (code_indicators.filter (fun ind => strContains s ind)).length

/-- Rust `str::lines().count()`: number of `'\n'`-terminated segments, plus
one for a nonempty final segment not ending in `'\n'`; `0` for `""`. -/
def rustLineCount (s : String) : Nat :=
  if s.isEmpty then 0
  else s.data.count '\n' + (if s.endsWith "\n" then 0 else 1)

/-- `trimmed.contains('{') && trimmed.contains('}')` from `detect_type`. -/
def hasBracePair (s : String) : Bool := s.contains '{' && s.contains '}'

/-- clipboard.rs `detect_type`. -/
def detect_type (text : String) : String :=
  let trimmed := rustTrim text
  if ((trimmed.startsWith "http://" || trimmed.startsWith "https://" ||
       trimmed.startsWith "ftp://") && !(trimmed.contains '\n')) then "url"
  else if (2 ≤ indicatorCount trimmed ∧ 3 ≤ rustLineCount trimmed) ∨
          (hasBracePair trimmed = true ∧ 1 ≤ indicatorCount trimmed ∧
           5 ≤ rustLineCount trimmed) then "code"
  else "text"

/-! ## Capture loop, text/image branch of one poll iteration
(clipboard.rs: `ClipboardMonitor::start`) -/

/-- Result of `Database::insert_clip` as seen by the capture loop:
`Ok(true)`, `Ok(false)`, or `Err(_)`. -/
inductive InsertOutcome where
  | okInserted
  | okRefreshed
  | err
deriving DecidableEq

/-- Observables of one branch of a poll iteration: the last-seen hash
afterwards, whether `insert_clip` was called, and whether the
`clipboard-changed` notification was emitted. -/
structure ObsResult where
  newState : String
  submitted : Bool
  notified : Bool
deriving DecidableEq

/-- The text branch of one iteration of the capture loop (clipboard.rs lines
30-51), for a successful clipboard read.  `computeHash` abstracts the SHA-256
hex digest (an external crate); `outcome` is the store's reply when a
submission happens.  Note the loop assigns `last_text_hash = hash.clone()`
BEFORE calling `insert_clip`, and emits only on `Ok(true)`. -/
def observeText (computeHash : String → String) (lastTextHash : String)
    (text : String) (outcome : InsertOutcome) : ObsResult :=
  if (trimChars text.data).isEmpty then
    ⟨lastTextHash, false, false⟩
  else
    let hash := computeHash text
    if hash ≠ lastTextHash then
      match outcome with
      | .okInserted => ⟨hash, true, true⟩
      | .okRefreshed => ⟨hash, true, false⟩
      | .err => ⟨hash, true, false⟩
    else ⟨lastTextHash, false, false⟩

/-- The image branch of one iteration (clipboard.rs lines 54-76): the hash is
likewise assigned before `save_image`/`insert_clip`; `saveOk` is whether
`save_image` returned a path. -/
def observeImage (computeHashBytes : List Nat → String) (lastImageHash : String)
    (bytes : List Nat) (saveOk : Bool) (outcome : InsertOutcome) : ObsResult :=
  let hash := computeHashBytes bytes
  if hash ≠ lastImageHash then
    if saveOk then
      match outcome with
      | .okInserted => ⟨hash, true, true⟩
      | .okRefreshed => ⟨hash, true, false⟩
      | .err => ⟨hash, true, false⟩
    else ⟨hash, false, false⟩
  else ⟨lastImageHash, false, false⟩

/-! ## Hand-rolled base64 (lib.rs: `base64_encode`) -/

/-- The alphabet constant `CHARS` of lib.rs `base64_encode`. -/
def B64_ALPHABET : List Char :=
  "ABCDEFGHIJKLMNOPQRSTUVWXYZabcdefghijklmnopqrstuvwxyz0123456789+/".data

/-- `CHARS[i] as char`; indices used are always `< 64`. -/
def b64char (i : Nat) : Char := B64_ALPHABET.getD i '?'

/-- lib.rs `base64_encode` over byte values, producing the pushed
characters.  Chunks of three bytes; missing bytes are taken as `0` and the
corresponding output positions are `'='`. -/
def base64_encode : List Nat → List Char
  | [] => []
  | [b0] =>
    let n := b0 <<< 16
    [b64char ((n >>> 18) &&& 63), b64char ((n >>> 12) &&& 63), '=', '=']
  | [b0, b1] =>
    let n := (b0 <<< 16) ||| (b1 <<< 8)
    [b64char ((n >>> 18) &&& 63), b64char ((n >>> 12) &&& 63),
     b64char ((n >>> 6) &&& 63), '=']
  | b0 :: b1 :: b2 :: rest =>
    let n := ((b0 <<< 16) ||| (b1 <<< 8)) ||| b2
    b64char ((n >>> 18) &&& 63) :: b64char ((n >>> 12) &&& 63) ::
    b64char ((n >>> 6) &&& 63) :: b64char (n &&& 63) :: base64_encode rest

/-- RFC 4648 §4 stated arithmetically: each 24-bit group
`b0·2^16 + b1·2^8 + b2` is written as four base-64 digits; a final 8-bit
quantum yields two digits and `"=="`, a final 16-bit quantum three digits
and `"="`. -/
def rfc4648_encode : List Nat → List Char
  | [] => []
  | [b0] =>
    let n := b0 * 65536
    [b64char (n / 262144 % 64), b64char (n / 4096 % 64), '=', '=']
  | [b0, b1] =>
    let n := b0 * 65536 + b1 * 256
    [b64char (n / 262144 % 64), b64char (n / 4096 % 64),
     b64char (n / 64 % 64), '=']
  | b0 :: b1 :: b2 :: rest =>
    let n := b0 * 65536 + b1 * 256 + b2
    b64char (n / 262144 % 64) :: b64char (n / 4096 % 64) ::
    b64char (n / 64 % 64) :: b64char (n % 64) :: rfc4648_encode rest

/-- Index of a character in the base64 alphabet. -/
def b64index (c : Char) : Option Nat := B64_ALPHABET.indexOf? c

/-- Standard base64 decoder (RFC 4648): four characters at a time, with
`'='` padding allowed only at the very end. -/
def base64_decode : List Char → Option (List Nat)
  | [] => some []
  | c0 :: c1 :: c2 :: c3 :: rest =>
    match b64index c0, b64index c1 with
    | some i0, some i1 =>
      if c2 == '=' && c3 == '=' && rest.isEmpty then
        some [i0 * 4 + i1 / 16]
      else if c3 == '=' && rest.isEmpty then
        match b64index c2 with
        | some i2 => some [i0 * 4 + i1 / 16, i1 % 16 * 16 + i2 / 4]
        | none => none
      else
        match b64index c2, b64index c3, base64_decode rest with
        | some i2, some i3, some bs =>
          some ((i0 * 4 + i1 / 16) :: (i1 % 16 * 16 + i2 / 4) ::
                (i2 % 4 * 64 + i3) :: bs)
        | _, _, _ => none
    | _, _ => none
  | _ => none

/-! ## UTF-8 lossy decoding (Rust `String::from_utf8_lossy`)

ai.rs converts every network chunk separately with
`String::from_utf8_lossy(&chunk)`.  Rust replaces each maximal invalid
subpart by U+FFFD; a sequence truncated by the end of the slice also
becomes one U+FFFD. -/

/-- The replacement character U+FFFD. -/
def repChar : Char := Char.ofNat 0xFFFD

/-- Is `b` a UTF-8 continuation byte (`0x80..=0xBF`)? -/
def isCont (b : Nat) : Bool := 0x80 ≤ b && b ≤ 0xBF

/-- Allowed range of the second byte given lead byte `b0` (Rust
`run_utf8_validation`): `0xE0` wants `0xA0..=0xBF`, `0xED` wants
`0x80..=0x9F`, `0xF0` wants `0x90..=0xBF`, `0xF4` wants `0x80..=0x8F`,
all other multi-byte leads want `0x80..=0xBF`. -/
def utf8SecondOk (b0 b1 : Nat) : Bool :=
  if b0 = 0xE0 then 0xA0 ≤ b1 && b1 ≤ 0xBF
  else if b0 = 0xED then 0x80 ≤ b1 && b1 ≤ 0x9F
  else if b0 = 0xF0 then 0x90 ≤ b1 && b1 ≤ 0xBF
  else if b0 = 0xF4 then 0x80 ≤ b1 && b1 ≤ 0x8F
  else isCont b1

/-- Decode one scalar value beginning at lead byte `b0` with following
bytes `rest`: the produced character (U+FFFD for a maximal invalid
subpart or a sequence truncated by the end of input) and how many bytes
of `rest` belong to it.  An offending byte that merely ends a too-short
sequence is not consumed; it is reprocessed as the next lead. -/
def utf8Step (b0 : Nat) (rest : List Nat) : Char × Nat :=
  if b0 < 0x80 then (Char.ofNat b0, 0)
  else if b0 < 0xC2 then (repChar, 0)
  else if b0 < 0xE0 then
    match rest with
    | b1 :: _ =>
      if isCont b1 then (Char.ofNat ((b0 - 0xC0) * 64 + (b1 - 0x80)), 1)
      else (repChar, 0)
    | [] => (repChar, 0)
  else if b0 < 0xF0 then
    match rest with
    | b1 :: b2 :: _ =>
      if utf8SecondOk b0 b1 then
        if isCont b2 then
          (Char.ofNat ((b0 - 0xE0) * 4096 + (b1 - 0x80) * 64 + (b2 - 0x80)), 2)
        else (repChar, 1)
      else (repChar, 0)
    | [b1] => if utf8SecondOk b0 b1 then (repChar, 1) else (repChar, 0)
    | [] => (repChar, 0)
  else if b0 < 0xF5 then
    match rest with
    | b1 :: b2 :: b3 :: _ =>
      if utf8SecondOk b0 b1 then
        if isCont b2 then
          if isCont b3 then
            (Char.ofNat ((b0 - 0xF0) * 262144 + (b1 - 0x80) * 4096 +
                         (b2 - 0x80) * 64 + (b3 - 0x80)), 3)
          else (repChar, 2)
        else (repChar, 1)
      else (repChar, 0)
    | [b1, b2] =>
      if utf8SecondOk b0 b1 then
        if isCont b2 then (repChar, 2) else (repChar, 1)
      else (repChar, 0)
    | [b1] => if utf8SecondOk b0 b1 then (repChar, 1) else (repChar, 0)
    | [] => (repChar, 0)
  else (repChar, 0)

/-- Worker for `utf8Lossy`: the fuel starts at the byte count and each
step consumes at least one byte, so it never runs out before the input
does (the fuel-exhaustion branch is unreachable). -/
def utf8LossyGo : Nat → List Nat → List Char
  | _, [] => []
  | 0, _ :: _ => []
  | fuel + 1, b0 :: rest =>
    let step := utf8Step b0 rest
    step.1 :: utf8LossyGo fuel (rest.drop step.2)

/-- Rust `String::from_utf8_lossy` over byte values. -/
def utf8Lossy (bs : List Nat) : List Char := utf8LossyGo bs.length bs

/-- Byte values of an ASCII string (helper for writing concrete streams). -/
def asciiBytes (s : String) : List Nat := s.data.map Char.toNat

/-! ## Minimal JSON values (stand-in for the external `serde_json` crate) -/

/-- `serde_json::Value`.  Numbers are kept as their raw lexeme; the code
under test never inspects numeric values. -/
inductive Json where
  | null
  | jbool (b : Bool)
  | jnum (raw : String)
  | jstr (s : String)
  | jarr (elems : List Json)
  | jobj (fields : List (String × Json))

/-- JSON insignificant whitespace. -/
def jsonWs (c : Char) : Bool := c == ' ' || c == '\t' || c == '\n' || c == '\r'

/-- Drop leading JSON whitespace. -/
def skipWs (cs : List Char) : List Char := cs.dropWhile jsonWs

/-- Value of a hexadecimal digit. -/
def hexVal (c : Char) : Option Nat :=
  if '0' ≤ c ∧ c ≤ '9' then some (c.toNat - '0'.toNat)
  else if 'a' ≤ c ∧ c ≤ 'f' then some (c.toNat - 'a'.toNat + 10)
  else if 'A' ≤ c ∧ c ≤ 'F' then some (c.toNat - 'A'.toNat + 10)
  else none

/-- Body of a JSON string, after the opening quote: returns the decoded
characters and the input following the closing quote.  Escapes follow the
JSON grammar, including surrogate pairs; lone surrogates and raw control
characters are errors. -/
def parseStringBody : List Char → Option (List Char × List Char)
  | [] => none
  | c :: cs =>
    if c == '"' then some ([], cs)
    else if c == '\\' then
      match cs with
      | [] => none
      | e :: cs2 =>
        if e == 'u' then
          match cs2 with
          | h1 :: h2 :: h3 :: h4 :: cs3 =>
            match hexVal h1, hexVal h2, hexVal h3, hexVal h4 with
            | some v1, some v2, some v3, some v4 =>
              let cp := ((v1 * 16 + v2) * 16 + v3) * 16 + v4
              if 0xD800 ≤ cp ∧ cp ≤ 0xDBFF then
                match cs3 with
                | e2 :: u2 :: g1 :: g2 :: g3 :: g4 :: cs4 =>
                  if e2 == '\\' && u2 == 'u' then
                    match hexVal g1, hexVal g2, hexVal g3, hexVal g4 with
                    | some w1, some w2, some w3, some w4 =>
                      let lo := ((w1 * 16 + w2) * 16 + w3) * 16 + w4
                      if 0xDC00 ≤ lo ∧ lo ≤ 0xDFFF then
                        match parseStringBody cs4 with
                        | some (body, rest) =>
                          some (Char.ofNat (0x10000 + (cp - 0xD800) * 0x400 +
                                            (lo - 0xDC00)) :: body, rest)
                        | none => none
                      else none
                    | _, _, _, _ => none
                  else none
                | _ => none
              else if 0xDC00 ≤ cp ∧ cp ≤ 0xDFFF then none
              else
                match parseStringBody cs3 with
                | some (body, rest) => some (Char.ofNat cp :: body, rest)
                | none => none
            | _, _, _, _ => none
          | _ => none
        else
          let dec : Option Char :=
            if e == '"' then some '"'
            else if e == '\\' then some '\\'
            else if e == '/' then some '/'
            else if e == 'b' then some (Char.ofNat 8)
            else if e == 'f' then some (Char.ofNat 12)
            else if e == 'n' then some '\n'
            else if e == 'r' then some '\r'
            else if e == 't' then some '\t'
            else none
          match dec with
          | some d =>
            match parseStringBody cs2 with
            | some (body, rest) => some (d :: body, rest)
            | none => none
          | none => none
    else if c.toNat < 0x20 then none
    else
      match parseStringBody cs with
      | some (body, rest) => some (c :: body, rest)
      | none => none

/-- Raw lexeme of a JSON number (`-? int frac? exp?`), returning it together
with the remaining input. -/
def parseNumRaw (cs : List Char) : Option (List Char × List Char) :=
  let signSplit : List Char × List Char :=
    match cs with
    | c :: t => if c == '-' then ([c], t) else ([], cs)
    | [] => ([], [])
  match signSplit.2 with
  | [] => none
  | c :: t =>
    let intPart : Option (List Char × List Char) :=
      if c == '0' then some ([c], t)
      else if c.isDigit then
        some (c :: t.takeWhile Char.isDigit, t.dropWhile Char.isDigit)
      else none
    match intPart with
    | none => none
    | some (ip, r1) =>
      let fracPart : Option (List Char × List Char) :=
        match r1 with
        | d :: t2 =>
          if d == '.' then
            if (t2.takeWhile Char.isDigit).isEmpty then none
            else some (d :: t2.takeWhile Char.isDigit, t2.dropWhile Char.isDigit)
          else some ([], r1)
        | [] => some ([], r1)
      match fracPart with
      | none => none
      | some (fp, r2) =>
        let expPart : Option (List Char × List Char) :=
          match r2 with
          | e :: t3 =>
            if e == 'e' || e == 'E' then
              let signSplit2 : List Char × List Char :=
                match t3 with
                | s :: t4 => if s == '+' || s == '-' then ([s], t4) else ([], t3)
                | [] => ([], [])
              if (signSplit2.2.takeWhile Char.isDigit).isEmpty then none
              else some (e :: (signSplit2.1 ++ signSplit2.2.takeWhile Char.isDigit),
                         signSplit2.2.dropWhile Char.isDigit)
            else some ([], r2)
          | [] => some ([], r2)
        match expPart with
        | none => none
        | some (ep, r3) => some (signSplit.1 ++ ip ++ fp ++ ep, r3)

mutual

/-- Fuel-indexed JSON value: literals, strings, numbers, arrays, objects. -/
def parseVal : Nat → List Char → Option (Json × List Char)
  | 0, _ => none
  | fuel + 1, cs =>
    match skipWs cs with
    | [] => none
    | 'n' :: 'u' :: 'l' :: 'l' :: rest => some (.null, rest)
    | 't' :: 'r' :: 'u' :: 'e' :: rest => some (.jbool true, rest)
    | 'f' :: 'a' :: 'l' :: 's' :: 'e' :: rest => some (.jbool false, rest)
    | c :: rest =>
      if c == '"' then
        match parseStringBody rest with
        | some (body, r) => some (.jstr (String.mk body), r)
        | none => none
      else if c == '{' then
        match skipWs rest with
        | ch :: r1 =>
          if ch == '}' then some (.jobj [], r1)
          else
            match parseMembers fuel (ch :: r1) with
            | some (fields, r2) => some (.jobj fields, r2)
            | none => none
        | [] => none
      else if c == '[' then
        match skipWs rest with
        | ch :: r1 =>
          if ch == ']' then some (.jarr [], r1)
          else
            match parseElems fuel (ch :: r1) with
            | some (elems, r2) => some (.jarr elems, r2)
            | none => none
        | [] => none
      else if c == '-' || c.isDigit then
        match parseNumRaw (c :: rest) with
        | some (raw, r) => some (.jnum (String.mk raw), r)
        | none => none
      else none

/-- One or more `"key": value` members followed by `'}'`. -/
def parseMembers : Nat → List Char → Option (List (String × Json) × List Char)
  | 0, _ => none
  | fuel + 1, cs =>
    match skipWs cs with
    | q :: r1 =>
      if q == '"' then
        match parseStringBody r1 with
        | some (key, r2) =>
          match skipWs r2 with
          | colon :: r3 =>
            if colon == ':' then
              match parseVal fuel r3 with
              | some (v, r4) =>
                match skipWs r4 with
                | sep :: r5 =>
                  if sep == ',' then
                    match parseMembers fuel r5 with
                    | some (fields, r6) =>
                      some ((String.mk key, v) :: fields, r6)
                    | none => none
                  else if sep == '}' then some ([(String.mk key, v)], r5)
                  else none
                | [] => none
              | none => none
            else none
          | [] => none
        | none => none
      else none
    | [] => none

/-- One or more array elements followed by `']'`. -/
def parseElems : Nat → List Char → Option (List Json × List Char)
  | 0, _ => none
  | fuel + 1, cs =>
    match parseVal fuel cs with
    | some (v, r1) =>
      match skipWs r1 with
      | sep :: r2 =>
        if sep == ',' then
          match parseElems fuel r2 with
          | some (elems, r3) => some (v :: elems, r3)
          | none => none
        else if sep == ']' then some ([v], r2)
        else none
      | [] => none
    | none => none

end

/-- `serde_json::from_str::<Value>`: a single value with only whitespace
allowed afterwards. -/
def parseJson (s : String) : Option Json :=
  match parseVal (2 * s.length + 2) s.data with
  | some (v, rest) => if (skipWs rest).isEmpty then some v else none
  | none => none

/-- `value["key"]`: field lookup (last duplicate wins, as in
`serde_json::Map`); `Null` on non-objects and missing keys. -/
def jIndex (j : Json) (key : String) : Json :=
  match j with
  | .jobj fields =>
    (fields.foldl (fun acc kv => if kv.1 == key then some kv.2 else acc) none).getD .null
  | _ => .null

/-- `value[i]` for arrays; `Null` out of range or on non-arrays. -/
def jIndexNat (j : Json) (i : Nat) : Json :=
  match j with
  | .jarr elems => elems.getD i .null
  | _ => .null

/-- `Value::as_str`. -/
def jAsStr : Json → Option String
  | .jstr s => some s
  | _ => none

/-- `Value::as_bool`. -/
def jAsBool : Json → Option Bool
  | .jbool b => some b
  | _ => none

/-! ## Canonical event stream and the three adapters (ai.rs) -/

/-- The `StreamChunk` values emitted on the `ai-stream` channel:
`delta s` is `{content: s, done: false}`, `done` is `{content: "", done: true}`. -/
inductive StreamEvent where
  | delta (s : String)
  | done
deriving DecidableEq

/-- Per-line behaviour of an adapter: the optional delta fragment to emit
and whether the line is the terminal marker. -/
abbrev LineFn := String → Option String × Bool

/-- Rust `str::starts_with` at the character level (for an ASCII prefix,
byte-level and char-level prefixes coincide on valid UTF-8). -/
def strStartsWith (s pre : String) : Bool := pre.data.isPrefixOf s.data

/-- Byte slice `&line[n..]` for an ASCII-prefix length `n`, as a char drop. -/
def strDrop (s : String) (n : Nat) : String := String.mk (s.data.drop n)

/-- One trimmed line of `stream_openai` (ai.rs lines 75-87): `data: `-prefixed
lines carry either the literal `[DONE]` terminal or JSON whose
`choices[0].delta.content` string, if present, is the fragment. -/
def openaiLine (line : String) : Option String × Bool :=
  if strStartsWith line "data: " then
    let data := strDrop line 6
    if data == "[DONE]" then (none, true)
    else
      match parseJson data with
      | some v =>
        (jAsStr (jIndex (jIndex (jIndexNat (jIndex v "choices") 0) "delta") "content"),
         false)
      | none => (none, false)
  else (none, false)

/-- One trimmed line of `stream_claude` (ai.rs lines 140-158):
`content_block_delta` yields `delta.text`, `message_stop` is terminal,
anything else is ignored. -/
def claudeLine (line : String) : Option String × Bool :=
  if strStartsWith line "data: " then
    match parseJson (strDrop line 6) with
    | some v =>
      let event_type := (jAsStr (jIndex v "type")).getD ""
      if event_type == "content_block_delta" then
        (jAsStr (jIndex (jIndex v "delta") "text"), false)
      else if event_type == "message_stop" then (none, true)
      else (none, false)
    | none => (none, false)
  else (none, false)

/-- One trimmed line of `stream_ollama` (ai.rs lines 207-219): every
non-empty line is JSON; a `response` string is the fragment and
`done: true` is terminal (both can fire on the same line, fragment first). -/
def ollamaLine (line : String) : Option String × Bool :=
  if line.isEmpty then (none, false)
  else
    match parseJson line with
    | some v =>
      (jAsStr (jIndex v "response"), jAsBool (jIndex v "done") == some true)
    | none => (none, false)

/-- Split the buffer at every `'\n'`: the complete lines (text before each
newline, in order) and the unterminated remainder retained for the next
read.  This is the net effect of the `while let Some(line_end) =
buffer.find('\n')` loop in ai.rs. -/
def splitNl : List Char → List (List Char) × List Char
  | [] => ([], [])
  | c :: cs =>
    let (ls, r) := splitNl cs
    if c = '\n' then ([] :: ls, r)
    else
      match ls with
      | l :: ls2 => ((c :: l) :: ls2, r)
      | [] => ([], c :: r)

/-- Process the complete lines of the buffer in order: accumulate the
content, emit a delta event per extracted fragment, and stop at the first
terminal line (emitting the final done event).  Returns the accumulated
content, the emitted events, and whether a terminal line was hit. -/
def runLines (f : LineFn) : List (List Char) → String → List StreamEvent →
    String × List StreamEvent × Bool
  | [], content, events => (content, events, false)
  | l :: ls, content, events =>
    let act := f (String.mk (trimChars l))
    let content' := match act.1 with
      | some s => content ++ s
      | none => content
    let events' := match act.1 with
      | some s => events ++ [.delta s]
      | none => events
    if act.2 then (content', events' ++ [.done], true)
    else runLines f ls content' events'

deriving instance DecidableEq for Except

/-- Outcome of one streaming request: the events emitted to the sink, the
value returned to the caller, and whether the return happened through the
terminal-marker branch (rather than end-of-stream). -/
structure RunResult where
  events : List StreamEvent
  result : Except String String
  sawTerminal : Bool
deriving DecidableEq

/-- The chunk loop shared by all three adapters (ai.rs lines 67-93, 132-164,
199-225): each `Ok` chunk is decoded lossily and appended to the buffer;
complete lines are consumed; a terminal line returns the accumulated
content at once; a chunk error aborts with `Err` (no done event); when the
stream ends a final done event is synthesized and the content returned. -/
def runChunks (f : LineFn) :
    List (Except String (List Nat)) → List Char → String → List StreamEvent →
    RunResult
  | [], _, content, events => ⟨events ++ [.done], .ok content, false⟩
  | .error e :: _, _, _, events => ⟨events, .error ("Stream error: " ++ e), false⟩
  | .ok bytes :: more, buf, content, events =>
    let split := splitNl (buf ++ utf8Lossy bytes)
    let out := runLines f split.1 content events
    if out.2.2 then ⟨out.2.1, .ok out.1, true⟩
    else runChunks f more split.2 out.1 out.2.1

/-- ai.rs `stream_openai`, from the first body chunk on (request building
and HTTP status handling precede the loop). -/
def stream_openai (chunks : List (Except String (List Nat))) : RunResult :=
  runChunks openaiLine chunks [] "" []

/-- ai.rs `stream_claude`, from the first body chunk on. -/
def stream_claude (chunks : List (Except String (List Nat))) : RunResult :=
  runChunks claudeLine chunks [] "" []

/-- ai.rs `stream_ollama`, from the first body chunk on. -/
def stream_ollama (chunks : List (Except String (List Nat))) : RunResult :=
  runChunks ollamaLine chunks [] "" []

/-- Concatenation of the delta fragments of an event sequence, in order. -/
def deltaConcat (events : List StreamEvent) : String :=
  events.foldl (fun acc e => match e with | .delta s => acc ++ s | .done => acc) ""

/-- Is the chunk an `Ok` transport read? -/
def isOkChunk : Except String (List Nat) → Bool
  | .ok _ => true
  | .error _ => false

/-- An OpenAI-style SSE exchange whose single delta fragment is the
two-byte UTF-8 character `é` (bytes `0xC3 0xA9`), followed by the
terminal marker. -/
def sseAccentBytes : List Nat :=
  asciiBytes "data: \x7b\"choices\":[\x7b\"delta\":\x7b\"content\":\"" ++
    [195, 169] ++ asciiBytes "\"\x7d\x7d]\x7d\ndata: [DONE]\n"

/-- The same bytes as `sseAccentBytes`, cut just after the lead byte
`0xC3` — a network chunk boundary inside the multi-byte character. -/
def sseAccentChunk1 : List Nat :=
  asciiBytes "data: \x7b\"choices\":[\x7b\"delta\":\x7b\"content\":\"" ++ [195]

/-- The remainder of `sseAccentBytes` after `sseAccentChunk1`. -/
def sseAccentChunk2 : List Nat :=
  [169] ++ asciiBytes "\"\x7d\x7d]\x7d\ndata: [DONE]\n"

/-- A single SSE chunk carrying one delta fragment and no terminal
marker: a truncated stream. -/
def sseTruncatedBytes : List Nat :=
  asciiBytes "data: \x7b\"choices\":[\x7b\"delta\":\x7b\"content\":\"hi\"\x7d\x7d]\x7d\n"

/-! ## Theorems -/

/-- C1 (counterexample): with the identity digest, starting from a blank
last-seen hash, observing `"hello"` while the store fails does NOT leave the
last-seen hash un-advanced with the next identical observation resubmitted:
the hash is advanced and the next identical observation is filtered out. -/
theorem observeText_err_counterexample :
    ¬ ((observeText (fun s => s) "" "hello" .err).newState = "" ∧
       (observeText (fun s => s)
          ((observeText (fun s => s) "" "hello" .err).newState)
          "hello" .okInserted).submitted = true) := by
  decide

/-- C1 (amended): when persisting fails, the capture loop emits no
notification, but the last-seen hash for that content kind IS advanced to
the new content's hash before the insert attempt, so the next observation
of identical clipboard content (text or image alike) is not submitted to
the store again — it is filtered out by the dedup check, whatever the
store would have answered. -/
theorem observeText_err_spec (computeHash : String → String)
    (computeHashBytes : List Nat → String) (last lastI text : String)
    (bytes : List Nat) (outcome2 outcome3 : InsertOutcome) (save2 : Bool)
    (hne : (trimChars text.data).isEmpty = false)
    (hdiff : computeHash text ≠ last)
    (hdiffI : computeHashBytes bytes ≠ lastI) :
    ((observeText computeHash last text .err).notified = false ∧
     (observeText computeHash last text .err).submitted = true ∧
     (observeText computeHash last text .err).newState = computeHash text ∧
     (observeText computeHash
         ((observeText computeHash last text .err).newState)
         text outcome2).submitted = false) ∧
    ((observeImage computeHashBytes lastI bytes true .err).notified = false ∧
     (observeImage computeHashBytes lastI bytes true .err).submitted = true ∧
     (observeImage computeHashBytes lastI bytes true .err).newState
        = computeHashBytes bytes ∧
     (observeImage computeHashBytes
         ((observeImage computeHashBytes lastI bytes true .err).newState)
         bytes save2 outcome3).submitted = false) := by
  constructor
  · simp [observeText, hne, hdiff]
  · simp [observeImage, hdiffI]

/-- Witness for `observeText_err_spec` at identity digests, blank
last-seen hashes, text `"hello"` and image bytes `[1]`. -/
theorem observeText_err_spec_witness :
    ((observeText (fun s => s) "" "hello" .err).notified = false ∧
     (observeText (fun s => s) "" "hello" .err).submitted = true ∧
     (observeText (fun s => s) "" "hello" .err).newState = (fun s : String => s) "hello" ∧
     (observeText (fun s => s)
         ((observeText (fun s => s) "" "hello" .err).newState)
         "hello" .okInserted).submitted = false) ∧
    ((observeImage (fun _ => "h") "" [1] true .err).notified = false ∧
     (observeImage (fun _ => "h") "" [1] true .err).submitted = true ∧
     (observeImage (fun _ => "h") "" [1] true .err).newState
        = (fun _ : List Nat => "h") [1] ∧
     (observeImage (fun _ => "h")
         ((observeImage (fun _ => "h") "" [1] true .err).newState)
         [1] true .okInserted).submitted = false) :=
  observeText_err_spec (fun s => s) (fun _ => "h") "" "" "hello" [1]
    .okInserted .okInserted true (by decide) (by decide) (by decide)

/-- C6: `detect_type` returns `"url"` exactly when the trimmed text starts
with `http://`, `https://` or `ftp://` and contains no newline; otherwise
`"code"` exactly when (`indicator_count ≥ 2` and `line_count ≥ 3`) or (a
`{`/`}` pair occurs and `indicator_count ≥ 1` and `line_count ≥ 5`);
otherwise `"text"`. -/
theorem detect_type_cases (text : String) :
    (detect_type text = "url" ↔
      (((rustTrim text).startsWith "http://" || (rustTrim text).startsWith "https://" ||
        (rustTrim text).startsWith "ftp://") && !((rustTrim text).contains '\n')) = true) ∧
    (detect_type text = "code" ↔
      ((((rustTrim text).startsWith "http://" || (rustTrim text).startsWith "https://" ||
         (rustTrim text).startsWith "ftp://") && !((rustTrim text).contains '\n')) = false ∧
       ((2 ≤ indicatorCount (rustTrim text) ∧ 3 ≤ rustLineCount (rustTrim text)) ∨
        (hasBracePair (rustTrim text) = true ∧ 1 ≤ indicatorCount (rustTrim text) ∧
         5 ≤ rustLineCount (rustTrim text))))) ∧
    (detect_type text = "text" ↔
      ((((rustTrim text).startsWith "http://" || (rustTrim text).startsWith "https://" ||
         (rustTrim text).startsWith "ftp://") && !((rustTrim text).contains '\n')) = false ∧
       ¬ ((2 ≤ indicatorCount (rustTrim text) ∧ 3 ≤ rustLineCount (rustTrim text)) ∨
          (hasBracePair (rustTrim text) = true ∧ 1 ≤ indicatorCount (rustTrim text) ∧
           5 ≤ rustLineCount (rustTrim text))))) := by
  by_cases h1 : (((rustTrim text).startsWith "http://" || (rustTrim text).startsWith "https://" ||
      (rustTrim text).startsWith "ftp://") && !((rustTrim text).contains '\n')) = true
  · simp [detect_type, h1]
  · by_cases h2 : ((2 ≤ indicatorCount (rustTrim text) ∧ 3 ≤ rustLineCount (rustTrim text)) ∨
        (hasBracePair (rustTrim text) = true ∧ 1 ≤ indicatorCount (rustTrim text) ∧
         5 ≤ rustLineCount (rustTrim text)))
    · simp [detect_type, h1, h2]
    · simp [detect_type, h1, h2]

/-- C7: the retention sweep keeps exactly the rows that are pinned or not
strictly older than the horizon (in their original order), and reports as
deleted count the number of unpinned strictly-older rows, which complements
the kept rows to the original size. -/
theorem clear_old_clips_spec (db : List ClipItem) (cutoff : String) :
    (∀ r : ClipItem, r ∈ (clear_old_clips db cutoff).1 ↔
      (r ∈ db ∧ ¬ (r.is_pinned = false ∧ r.created_at < cutoff))) ∧
    List.Sublist (clear_old_clips db cutoff).1 db ∧
    (clear_old_clips db cutoff).2 + ((clear_old_clips db cutoff).1).length
      = db.length ∧
    (clear_old_clips db cutoff).2
      = (db.filter (fun r => r.is_pinned = false && decide (r.created_at < cutoff))).length := by
  have hst : ∀ x : ClipItem, sweepTarget cutoff x = true ↔
      (x.is_pinned = false ∧ x.created_at < cutoff) := by
    intro x
    simp [sweepTarget]
  have hnot : ∀ (P : Prop) (b : Bool), (b = true ↔ P) → ((!b) = true ↔ ¬ P) := by
    intro P b h
    cases b <;> simp_all
  refine ⟨fun r => ?_, List.filter_sublist _, ?_, rfl⟩
  · simp only [clear_old_clips, List.mem_filter]
    exact and_congr_right (fun _ => hnot _ _ (hst r))
  · simp only [clear_old_clips, ← List.countP_eq_length_filter]
    have h := List.length_eq_countP_add_countP (p := sweepTarget cutoff) db
    have h2 : db.countP (fun r => !(sweepTarget cutoff r))
        = db.countP (fun r => ¬ (sweepTarget cutoff r = true)) := by
      apply List.countP_congr
      intro r _
      simp
    omega

/-- C9: for an id present in the store (ids are unique, being the primary
key, so `find?` locates the row), `toggle_pin` negates exactly that row's
`is_pinned`, leaves every other field and every other row unchanged,
returns the new pinned state, and applied twice restores the store. -/
theorem toggle_pin_spec (db : List ClipItem) (id : String) (r₀ : ClipItem)
    (hfind : db.find? (fun r => r.id == id) = some r₀) :
    (toggle_pin db id).1.length = db.length ∧
    (∀ j : Nat, ((toggle_pin db id).1)[j]? = (db[j]?).map (fun r =>
        if r.id = id then { r with is_pinned := !r.is_pinned } else r)) ∧
    (toggle_pin db id).2 = some (!r₀.is_pinned) ∧
    (toggle_pin (toggle_pin db id).1 id).1 = db := by
  have hid : ∀ r : ClipItem,
      (if r.id = id then { r with is_pinned := !r.is_pinned } else r).id = r.id := by
    intro r
    by_cases h : r.id = id <;> simp [h]
  have h1 : ∀ l : List ClipItem, (toggle_pin l id).1 = l.map (fun r =>
      if r.id = id then { r with is_pinned := !r.is_pinned } else r) := by
    intro l
    rfl
  have hfind' : ((toggle_pin db id).1).find? (fun r => r.id == id) =
      some (if r₀.id = id then { r₀ with is_pinned := !r₀.is_pinned } else r₀) := by
    rw [h1, List.find?_map]
    have : ((fun r : ClipItem => r.id == id) ∘ (fun r =>
        if r.id = id then { r with is_pinned := !r.is_pinned } else r)) =
        (fun r : ClipItem => r.id == id) := by
      funext r
      simp [hid r]
    rw [this, hfind]
    rfl
  have hr₀ : r₀.id = id := by
    have := List.find?_some hfind
    simpa using this
  refine ⟨?_, ?_, ?_, ?_⟩
  · rw [h1]
    simp
  · intro j
    rw [h1]
    simp
  · show (((toggle_pin db id).1).find? (fun r => r.id == id)).map
        (fun r => r.is_pinned) = some (!r₀.is_pinned)
    rw [hfind']
    simp [hr₀]
  · rw [h1, h1, List.map_map]
    have : ((fun r : ClipItem => if r.id = id then { r with is_pinned := !r.is_pinned } else r) ∘
        (fun r : ClipItem => if r.id = id then { r with is_pinned := !r.is_pinned } else r)) =
        fun r => r := by
      funext r
      obtain ⟨i, c, ch, ct, sa, ip, pin, ca⟩ := r
      by_cases h : i = id <;> simp [h]
    rw [this, List.map_id']

/-- Witness for `toggle_pin_spec`: a two-row store where the second row is
toggled. -/
theorem toggle_pin_spec_witness :
    (toggle_pin
      [⟨"a", "A", "ha", "text", none, none, false, "2024"⟩,
       ⟨"b", "B", "hb", "text", none, none, false, "2025"⟩] "b").2 = some true ∧
    (toggle_pin (toggle_pin
      [⟨"a", "A", "ha", "text", none, none, false, "2024"⟩,
       ⟨"b", "B", "hb", "text", none, none, false, "2025"⟩] "b").1 "b").1 =
      [⟨"a", "A", "ha", "text", none, none, false, "2024"⟩,
       ⟨"b", "B", "hb", "text", none, none, false, "2025"⟩] := by
  have h := toggle_pin_spec
    [⟨"a", "A", "ha", "text", none, none, false, "2024"⟩,
     ⟨"b", "B", "hb", "text", none, none, false, "2025"⟩] "b"
    ⟨"b", "B", "hb", "text", none, none, false, "2025"⟩ (by decide)
  exact ⟨h.2.2.1, h.2.2.2⟩

/-- C3: if the submitted item's `content_hash` is already stored,
`insert_clip` creates no new row — each row keeps all fields except that the
matching row's `created_at` becomes the submitted timestamp — and reports
`false`; if the hash is absent, the row is appended and `true` is reported.
Consequently, submitting two items with the same hash (the same text) into a
store not containing it yields exactly one row with that hash, carrying the
second submission's timestamp. -/
theorem insert_clip_spec :
    (∀ (db : List ClipItem) (item : ClipItem),
      (db.any (fun r => r.content_hash == item.content_hash)) = true →
        (insert_clip db item).2 = false ∧
        (insert_clip db item).1.length = db.length ∧
        ∀ j : Nat, ((insert_clip db item).1)[j]? = (db[j]?).map (fun r =>
          if r.content_hash = item.content_hash then
            { r with created_at := item.created_at } else r)) ∧
    (∀ (db : List ClipItem) (item : ClipItem),
      (db.any (fun r => r.content_hash == item.content_hash)) = false →
        (insert_clip db item).2 = true ∧
        (insert_clip db item).1 = db ++ [item]) ∧
    (∀ (db : List ClipItem) (i1 i2 : ClipItem),
      i1.content_hash = i2.content_hash →
      (∀ r ∈ db, r.content_hash ≠ i1.content_hash) →
        (insert_clip ((insert_clip db i1).1) i2).1.countP
          (fun r => r.content_hash == i2.content_hash) = 1 ∧
        ∀ r ∈ (insert_clip ((insert_clip db i1).1) i2).1,
          r.content_hash = i2.content_hash → r.created_at = i2.created_at) := by
  have hpres : ∀ (db : List ClipItem) (item : ClipItem),
      (db.any (fun r => r.content_hash == item.content_hash)) = true →
        (insert_clip db item).1 = db.map (fun r =>
          if r.content_hash = item.content_hash then
            { r with created_at := item.created_at } else r) ∧
        (insert_clip db item).2 = false := by
    intro db item h
    simp [insert_clip, h]
  have habs : ∀ (db : List ClipItem) (item : ClipItem),
      (db.any (fun r => r.content_hash == item.content_hash)) = false →
        (insert_clip db item).1 = db ++ [item] ∧ (insert_clip db item).2 = true := by
    intro db item h
    simp only [insert_clip]
    rw [if_neg (by simp [h])]
    exact ⟨rfl, rfl⟩
  refine ⟨?_, ?_, ?_⟩
  · intro db item h
    refine ⟨(hpres db item h).2, ?_, ?_⟩
    · rw [(hpres db item h).1]
      simp
    · intro j
      rw [(hpres db item h).1]
      simp
  · intro db item h
    exact ⟨(habs db item h).2, (habs db item h).1⟩
  · intro db i1 i2 hsame hnone
    have h1 : (db.any (fun r => r.content_hash == i1.content_hash)) = false := by
      simp only [List.any_eq_false]
      intro r hr
      simpa using hnone r hr
    have e1 : (insert_clip db i1).1 = db ++ [i1] := (habs db i1 h1).1
    have h2 : ((db ++ [i1]).any (fun r => r.content_hash == i2.content_hash)) = true := by
      simp [hsame]
    have e2 : (insert_clip ((insert_clip db i1).1) i2).1 = (db ++ [i1]).map (fun r =>
        if r.content_hash = i2.content_hash then
          { r with created_at := i2.created_at } else r) := by
      rw [e1]
      exact (hpres (db ++ [i1]) i2 (by rw [← e1] at h2; rw [e1] at h2; exact h2)).1
    constructor
    · rw [e2, List.countP_map]
      have hcomp : ((fun r : ClipItem => r.content_hash == i2.content_hash) ∘ (fun r =>
          if r.content_hash = i2.content_hash then
            { r with created_at := i2.created_at } else r)) =
          (fun r : ClipItem => r.content_hash == i2.content_hash) := by
        funext r
        by_cases h : r.content_hash = i2.content_hash <;> simp [h]
      rw [hcomp, List.countP_append]
      have hz : db.countP (fun r => r.content_hash == i2.content_hash) = 0 := by
        rw [List.countP_eq_zero]
        intro r hr
        have := hnone r hr
        rw [hsame] at this
        simpa using this
      rw [hz]
      simp [hsame]
    · intro r hr hmatch
      rw [e2] at hr
      obtain ⟨x, hx, hfx⟩ := List.mem_map.mp hr
      rcases List.mem_append.mp hx with hxdb | hxi1
      · have hne : x.content_hash ≠ i2.content_hash := by
          have := hnone x hxdb
          rwa [hsame] at this
        rw [if_neg hne] at hfx
        rw [← hfx] at hmatch
        exact absurd hmatch hne
      · have hx1 : x = i1 := by simpa using hxi1
        rw [hx1, if_pos hsame] at hfx
        rw [← hfx]

/-- Witness for `insert_clip_spec`: inserting the same hash twice into an
empty store leaves exactly one row with that hash. -/
theorem insert_clip_spec_witness :
    (insert_clip ((insert_clip ([] : List ClipItem)
          ⟨"1", "x", "h", "text", none, none, false, "t1"⟩).1)
        ⟨"2", "x", "h", "text", none, none, false, "t2"⟩).1.countP
      (fun r => r.content_hash == "h") = 1 ∧
    (insert_clip ([] : List ClipItem)
        ⟨"1", "x", "h", "text", none, none, false, "t1"⟩).2 = true :=
  ⟨(insert_clip_spec.2.2 []
      ⟨"1", "x", "h", "text", none, none, false, "t1"⟩
      ⟨"2", "x", "h", "text", none, none, false, "t2"⟩ rfl (by simp)).1,
   (insert_clip_spec.2.1 [] ⟨"1", "x", "h", "text", none, none, false, "t1"⟩
      (by simp)).1⟩

/-- C8: whatever the store contents, filters, limit and offset, the rows
returned by `get_clips` are ordered pinned-first and, within equal pinned
status, by `created_at` descending. -/
theorem get_clips_sorted (db : List ClipItem) (search clip_type : Option String)
    (limit offset : Nat) :
    (get_clips db search clip_type limit offset).Pairwise (fun a b =>
      (b.is_pinned = true → a.is_pinned = true) ∧
      (a.is_pinned = b.is_pinned → b.created_at ≤ a.created_at)) := by
  have htrans : ∀ (a b c : ClipItem), clipLe a b → clipLe b c → clipLe a c := by
    intro a b c hab hbc
    simp only [clipLe] at hab hbc ⊢
    cases pa : a.is_pinned <;> cases pb : b.is_pinned <;> cases pc : c.is_pinned <;>
        simp_all <;> exact le_trans hbc hab
  have htotal : ∀ (a b : ClipItem), clipLe a b || clipLe b a := by
    intro a b
    simp only [clipLe]
    cases pa : a.is_pinned <;> cases pb : b.is_pinned <;> simp_all <;>
      exact le_total _ _
  have himp : ∀ a b : ClipItem, clipLe a b = true →
      ((b.is_pinned = true → a.is_pinned = true) ∧
       (a.is_pinned = b.is_pinned → b.created_at ≤ a.created_at)) := by
    intro a b h
    simp only [clipLe] at h
    by_cases hp : a.is_pinned = b.is_pinned
    · rw [if_pos hp] at h
      simp only [decide_eq_true_eq] at h
      exact ⟨fun hb => hp.trans hb, fun _ => h⟩
    · rw [if_neg hp] at h
      exact ⟨fun _ => h, fun he => absurd he hp⟩
  have general : ∀ (l : List ClipItem) (lim off : Nat),
      (((l.mergeSort clipLe).drop off).take lim).Pairwise (fun a b =>
        (b.is_pinned = true → a.is_pinned = true) ∧
        (a.is_pinned = b.is_pinned → b.created_at ≤ a.created_at)) := by
    intro l lim off
    have base := (List.sorted_mergeSort htrans htotal l).imp
      (fun {a b} h => himp a b h)
    exact base.sublist
      ((List.take_sublist lim _).trans (List.drop_sublist off _))
  exact general _ limit offset

/-- Each alphabet character decodes back to its index. -/
theorem b64index_b64char : ∀ i : Nat, i < 64 → b64index (b64char i) = some i := by
  decide

/-- No alphabet character is the padding character. -/
theorem b64char_ne_eq : ∀ i : Nat, i < 64 → (b64char i == '=') = false := by
  decide

/-- Masking with `63` is reduction modulo `64`. -/
theorem and63 (n : Nat) : n &&& 63 = n % 64 := by
  have h63 : (63 : Nat) = 2 ^ 6 - 1 := rfl
  rw [h63, Nat.and_pow_two_sub_one_eq_mod]

/-- `(n >> k) & 63` is the `k`-shifted base-64 digit. -/
theorem digit_eq (n k : Nat) : (n >>> k) &&& 63 = n / 2 ^ k % 64 := by
  rw [Nat.shiftRight_eq_div_pow, and63]

/-- Base-64 digits are below 64. -/
theorem digit_lt (n k : Nat) : (n >>> k) &&& 63 < 64 := by
  rw [digit_eq]
  exact Nat.mod_lt _ (by omega)

/-- `(b0 << 16) | (b1 << 8)` is plain positional arithmetic. -/
theorem or_bytes2 (b0 b1 : Nat) (h1 : b1 < 256) :
    (b0 <<< 16) ||| (b1 <<< 8) = b0 * 65536 + b1 * 256 := by
  have e0 : b0 <<< 16 = 2 ^ 16 * b0 := by rw [Nat.shiftLeft_eq]; ring
  have e1 : b1 <<< 8 = 2 ^ 8 * b1 := by rw [Nat.shiftLeft_eq]; ring
  have hlt : b1 <<< 8 < 2 ^ 16 := by rw [e1]; norm_num; omega
  rw [e0, ← Nat.mul_add_lt_is_or hlt b0, e1]
  ring

/-- `((b0 << 16) | (b1 << 8)) | b2` is plain positional arithmetic. -/
theorem or_bytes3 (b0 b1 b2 : Nat) (h1 : b1 < 256) (h2 : b2 < 256) :
    ((b0 <<< 16) ||| (b1 <<< 8)) ||| b2 = b0 * 65536 + b1 * 256 + b2 := by
  rw [or_bytes2 b0 b1 h1]
  have e : b0 * 65536 + b1 * 256 = 2 ^ 8 * (b0 * 256 + b1) := by ring
  have h2' : b2 < 2 ^ 8 := by norm_num; omega
  rw [e, ← Nat.mul_add_lt_is_or h2' (b0 * 256 + b1)]

/-- The hand-rolled encoder agrees with the RFC 4648 digit description. -/
theorem base64_encode_eq_rfc : ∀ data : List Nat, (∀ b ∈ data, b < 256) →
    base64_encode data = rfc4648_encode data
  | [], _ => rfl
  | [b0], _ => by
    have e0 : b0 <<< 16 = b0 * 65536 := by rw [Nat.shiftLeft_eq]
    simp only [base64_encode, rfc4648_encode, e0, digit_eq]
    norm_num
  | [b0, b1], h => by
    simp only [base64_encode, rfc4648_encode,
      or_bytes2 b0 b1 (h b1 (by simp)), digit_eq]
    norm_num
  | b0 :: b1 :: b2 :: rest, h => by
    simp only [base64_encode, rfc4648_encode,
      or_bytes3 b0 b1 b2 (h b1 (by simp)) (h b2 (by simp)),
      Nat.shiftRight_eq_div_pow, and63]
    norm_num
    exact base64_encode_eq_rfc rest (fun b hb => h b (by simp [hb]))

/-- Decoding a full four-digit group peels three bytes. -/
theorem decode_cons (i0 i1 i2 i3 : Nat) (h0 : i0 < 64) (h1 : i1 < 64)
    (h2 : i2 < 64) (h3 : i3 < 64) (tail : List Char) :
    base64_decode (b64char i0 :: b64char i1 :: b64char i2 :: b64char i3 :: tail) =
      match base64_decode tail with
      | some bs => some ((i0 * 4 + i1 / 16) :: (i1 % 16 * 16 + i2 / 4) ::
                         (i2 % 4 * 64 + i3) :: bs)
      | none => none := by
  simp only [base64_decode, b64index_b64char _ h0, b64index_b64char _ h1,
    b64index_b64char _ h2, b64index_b64char _ h3, b64char_ne_eq _ h2,
    b64char_ne_eq _ h3, Bool.false_and, Bool.and_self]
  simp only [Bool.false_and, if_neg (by simp : ¬(false = true))]
  cases base64_decode tail <;> rfl

/-- Decoding a double-padded group yields the single remaining byte. -/
theorem decode_pad2 (i0 i1 : Nat) (h0 : i0 < 64) (h1 : i1 < 64) :
    base64_decode [b64char i0, b64char i1, '=', '='] = some [i0 * 4 + i1 / 16] := by
  simp [base64_decode, b64index_b64char _ h0, b64index_b64char _ h1]

/-- Decoding a single-padded group yields the two remaining bytes. -/
theorem decode_pad1 (i0 i1 i2 : Nat) (h0 : i0 < 64) (h1 : i1 < 64) (h2 : i2 < 64) :
    base64_decode [b64char i0, b64char i1, b64char i2, '='] =
      some [i0 * 4 + i1 / 16, i1 % 16 * 16 + i2 / 4] := by
  simp [base64_decode, b64index_b64char _ h0, b64index_b64char _ h1,
    b64index_b64char _ h2, b64char_ne_eq _ h2]

/-- Round trip: the standard decoder inverts the hand-rolled encoder. -/
theorem base64_decode_encode : ∀ data : List Nat, (∀ b ∈ data, b < 256) →
    base64_decode (base64_encode data) = some data
  | [], _ => rfl
  | [b0], h => by
    have hb : b0 < 256 := h b0 (by simp)
    have e0 : b0 <<< 16 = b0 * 65536 := by rw [Nat.shiftLeft_eq]
    simp only [base64_encode]
    rw [decode_pad2 _ _ (digit_lt _ _) (digit_lt _ _)]
    congr 1
    simp only [digit_eq, e0]
    norm_num
    omega
  | [b0, b1], h => by
    have hb0 : b0 < 256 := h b0 (by simp)
    have hb1 : b1 < 256 := h b1 (by simp)
    simp only [base64_encode]
    rw [decode_pad1 _ _ _ (digit_lt _ _) (digit_lt _ _) (digit_lt _ _)]
    congr 1
    simp only [digit_eq, or_bytes2 b0 b1 hb1]
    norm_num
    constructor <;> omega
  | b0 :: b1 :: b2 :: rest, h => by
    have hb0 : b0 < 256 := h b0 (by simp)
    have hb1 : b1 < 256 := h b1 (by simp)
    have hb2 : b2 < 256 := h b2 (by simp)
    have hm : ∀ n : Nat, n &&& 63 = n % 64 := fun n => by
      have := digit_eq n 0
      simpa using this
    have hm63 : (((b0 <<< 16) ||| (b1 <<< 8)) ||| b2) &&& 63 < 64 := by
      rw [hm]
      exact Nat.mod_lt _ (by omega)
    simp only [base64_encode]
    rw [decode_cons _ _ _ _ (digit_lt _ _) (digit_lt _ _) (digit_lt _ _) hm63 _]
    rw [base64_decode_encode rest (fun b hb => h b (by simp [hb]))]
    simp only [digit_eq, hm, or_bytes3 b0 b1 b2 hb1 hb2]
    norm_num
    refine ⟨?_, ?_, ?_⟩ <;> omega

/-- The encoder's output length is always a multiple of four. -/
theorem base64_encode_length : ∀ data : List Nat,
    (base64_encode data).length % 4 = 0
  | [] => rfl
  | [_] => by simp [base64_encode]
  | [_, _] => by simp [base64_encode]
  | b0 :: b1 :: b2 :: rest => by
    simp only [base64_encode, List.length_cons]
    have := base64_encode_length rest
    omega

/-- C10: on byte input, `base64_encode` produces the RFC 4648 standard
base64 encoding — it agrees with the RFC digit description, its length is
padded with `'='` to a multiple of four, and a standard decoder recovers
exactly the input bytes. -/
theorem base64_encode_spec (data : List Nat) (h : ∀ b ∈ data, b < 256) :
    base64_encode data = rfc4648_encode data ∧
    base64_decode (base64_encode data) = some data ∧
    (base64_encode data).length % 4 = 0 :=
  ⟨base64_encode_eq_rfc data h, base64_decode_encode data h,
   base64_encode_length data⟩

/-- Witness for `base64_encode_spec` on the RFC test vector `"Man"`. -/
theorem base64_encode_spec_witness :
    base64_encode [77, 97, 110] = rfc4648_encode [77, 97, 110] ∧
    base64_decode (base64_encode [77, 97, 110]) = some [77, 97, 110] ∧
    (base64_encode [77, 97, 110]).length % 4 = 0 :=
  base64_encode_spec [77, 97, 110] (by decide)

/-- Appending a delta event extends the concatenated text. -/
theorem deltaConcat_snoc_delta (evs : List StreamEvent) (s : String) :
    deltaConcat (evs ++ [StreamEvent.delta s]) = deltaConcat evs ++ s := by
  simp [deltaConcat, List.foldl_append]

/-- Appending the done event leaves the concatenated text unchanged. -/
theorem deltaConcat_snoc_done (evs : List StreamEvent) :
    deltaConcat (evs ++ [StreamEvent.done]) = deltaConcat evs := by
  simp [deltaConcat, List.foldl_append]

/-- Line processing only appends delta events, followed by one done event
exactly when a terminal line was hit; and the accumulated content tracks
the concatenation of the emitted delta fragments. -/
theorem runLines_spec (f : LineFn) (ls : List (List Char)) :
    ∀ (content : String) (events : List StreamEvent),
    (∃ ds : List String,
      (runLines f ls content events).2.1 =
        events ++ ds.map StreamEvent.delta ++
          (if (runLines f ls content events).2.2 = true
           then [StreamEvent.done] else [])) ∧
    (content = deltaConcat events →
      (runLines f ls content events).1 =
        deltaConcat (runLines f ls content events).2.1) := by
  induction ls with
  | nil =>
    intro content events
    exact ⟨⟨[], by simp [runLines]⟩, fun h => by simpa [runLines] using h⟩
  | cons l ls ih =>
    intro content events
    rcases hact : f (String.mk (trimChars l)) with ⟨o, b⟩
    rcases o with _ | s
    · cases b
      · have hred : runLines f (l :: ls) content events =
            runLines f ls content events := by
          simp [runLines, hact]
        rw [hred]
        exact ih content events
      · have hred : runLines f (l :: ls) content events =
            (content, events ++ [StreamEvent.done], true) := by
          simp [runLines, hact]
        rw [hred]
        refine ⟨⟨[], by simp⟩, fun h => ?_⟩
        simpa [deltaConcat_snoc_done] using h
    · cases b
      · have hred : runLines f (l :: ls) content events =
            runLines f ls (content ++ s) (events ++ [StreamEvent.delta s]) := by
          simp [runLines, hact]
        rw [hred]
        obtain ⟨⟨ds, hds⟩, hc⟩ := ih (content ++ s) (events ++ [StreamEvent.delta s])
        refine ⟨⟨s :: ds, ?_⟩, fun h => ?_⟩
        · rw [hds]
          simp
        · exact hc (by rw [h, deltaConcat_snoc_delta])
      · have hred : runLines f (l :: ls) content events =
            (content ++ s,
             events ++ [StreamEvent.delta s] ++ [StreamEvent.done], true) := by
          simp [runLines, hact]
        rw [hred]
        refine ⟨⟨[s], by simp⟩, fun h => ?_⟩
        rw [deltaConcat_snoc_done, deltaConcat_snoc_delta, h]

/-- The chunk loop over a stream of successful reads: whatever the buffered
leftovers, the events emitted from here on are deltas followed by exactly
one done, and the call returns `Ok` with the concatenation of all delta
fragments. -/
theorem runChunks_spec (f : LineFn) :
    ∀ (chunks : List (Except String (List Nat))) (buf : List Char)
      (content : String) (events : List StreamEvent),
    (∀ c ∈ chunks, isOkChunk c = true) → content = deltaConcat events →
    ∃ ds : List String,
      (runChunks f chunks buf content events).events =
        events ++ ds.map StreamEvent.delta ++ [StreamEvent.done] ∧
      (runChunks f chunks buf content events).result =
        .ok (deltaConcat ((runChunks f chunks buf content events).events)) := by
  intro chunks
  induction chunks with
  | nil =>
    intro buf content events _ hinv
    refine ⟨[], by simp [runChunks], ?_⟩
    simp only [runChunks, deltaConcat_snoc_done]
    rw [hinv]
  | cons c more ih =>
    intro buf content events hok hinv
    cases c with
    | error e =>
      have hbad := hok (Except.error e) (by simp)
      simp [isOkChunk] at hbad
    | ok bytes =>
      have hstep : runChunks f (.ok bytes :: more) buf content events =
          (if (runLines f (splitNl (buf ++ utf8Lossy bytes)).1 content events).2.2 = true then
            ⟨(runLines f (splitNl (buf ++ utf8Lossy bytes)).1 content events).2.1,
             .ok (runLines f (splitNl (buf ++ utf8Lossy bytes)).1 content events).1,
             true⟩
           else runChunks f more (splitNl (buf ++ utf8Lossy bytes)).2
             (runLines f (splitNl (buf ++ utf8Lossy bytes)).1 content events).1
             (runLines f (splitNl (buf ++ utf8Lossy bytes)).1 content events).2.1) :=
        rfl
      obtain ⟨⟨ds1, hds1⟩, hc⟩ :=
        runLines_spec f (splitNl (buf ++ utf8Lossy bytes)).1 content events
      by_cases hb :
          (runLines f (splitNl (buf ++ utf8Lossy bytes)).1 content events).2.2 = true
      · rw [if_pos hb] at hds1
        refine ⟨ds1, ?_, ?_⟩
        · rw [hstep, if_pos hb]
          exact hds1
        · rw [hstep, if_pos hb]
          have := hc hinv
          simp only []
          rw [this]
      · rw [if_neg hb] at hds1
        obtain ⟨ds2, h1, h2⟩ := ih _ _ _
          (fun c hc' => hok c (by simp [hc'])) (hc hinv)
        refine ⟨ds1 ++ ds2, ?_, ?_⟩
        · rw [hstep, if_neg hb, h1, hds1]
          simp
        · rw [hstep, if_neg hb]
          exact h2

/-- C4: over any all-`Ok` (possibly truncated) byte stream, each of the
three adapters emits zero or more delta events followed by exactly one done
event, and nothing after it. -/
theorem stream_events_shape (chunks : List (Except String (List Nat)))
    (hok : ∀ c ∈ chunks, isOkChunk c = true) :
    (∃ ds : List String, (stream_openai chunks).events =
      ds.map StreamEvent.delta ++ [StreamEvent.done]) ∧
    (∃ ds : List String, (stream_claude chunks).events =
      ds.map StreamEvent.delta ++ [StreamEvent.done]) ∧
    (∃ ds : List String, (stream_ollama chunks).events =
      ds.map StreamEvent.delta ++ [StreamEvent.done]) := by
  refine ⟨?_, ?_, ?_⟩
  · obtain ⟨ds, h1, _⟩ := runChunks_spec openaiLine chunks [] "" [] hok rfl
    exact ⟨ds, by simpa [stream_openai] using h1⟩
  · obtain ⟨ds, h1, _⟩ := runChunks_spec claudeLine chunks [] "" [] hok rfl
    exact ⟨ds, by simpa [stream_claude] using h1⟩
  · obtain ⟨ds, h1, _⟩ := runChunks_spec ollamaLine chunks [] "" [] hok rfl
    exact ⟨ds, by simpa [stream_ollama] using h1⟩

/-- Witness for `stream_events_shape` on a one-chunk stream carrying the
OpenAI terminal marker. -/
theorem stream_events_shape_witness :
    (∃ ds : List String,
      (stream_openai [.ok (asciiBytes "data: [DONE]\n")]).events =
        ds.map StreamEvent.delta ++ [StreamEvent.done]) ∧
    (∃ ds : List String,
      (stream_claude [.ok (asciiBytes "data: [DONE]\n")]).events =
        ds.map StreamEvent.delta ++ [StreamEvent.done]) ∧
    (∃ ds : List String,
      (stream_ollama [.ok (asciiBytes "data: [DONE]\n")]).events =
        ds.map StreamEvent.delta ++ [StreamEvent.done]) :=
  stream_events_shape [.ok (asciiBytes "data: [DONE]\n")] (by decide)

/-- C5: if the transport stream is exhausted (all reads succeed) without
any terminal marker having been observed, every adapter still returns
`Ok` with the concatenation of the delta fragments accumulated so far and
still ends its event sequence with a synthesized done event. -/
theorem stream_truncated_done (chunks : List (Except String (List Nat)))
    (hok : ∀ c ∈ chunks, isOkChunk c = true)
    (_ht1 : (stream_openai chunks).sawTerminal = false)
    (_ht2 : (stream_claude chunks).sawTerminal = false)
    (_ht3 : (stream_ollama chunks).sawTerminal = false) :
    ((stream_openai chunks).result =
        .ok (deltaConcat (stream_openai chunks).events) ∧
      ∃ ds : List String, (stream_openai chunks).events =
        ds.map StreamEvent.delta ++ [StreamEvent.done]) ∧
    ((stream_claude chunks).result =
        .ok (deltaConcat (stream_claude chunks).events) ∧
      ∃ ds : List String, (stream_claude chunks).events =
        ds.map StreamEvent.delta ++ [StreamEvent.done]) ∧
    ((stream_ollama chunks).result =
        .ok (deltaConcat (stream_ollama chunks).events) ∧
      ∃ ds : List String, (stream_ollama chunks).events =
        ds.map StreamEvent.delta ++ [StreamEvent.done]) := by
  refine ⟨⟨?_, ?_⟩, ⟨?_, ?_⟩, ⟨?_, ?_⟩⟩
  · obtain ⟨ds, _, h2⟩ := runChunks_spec openaiLine chunks [] "" [] hok rfl
    exact h2
  · obtain ⟨ds, h1, _⟩ := runChunks_spec openaiLine chunks [] "" [] hok rfl
    exact ⟨ds, by simpa [stream_openai] using h1⟩
  · obtain ⟨ds, _, h2⟩ := runChunks_spec claudeLine chunks [] "" [] hok rfl
    exact h2
  · obtain ⟨ds, h1, _⟩ := runChunks_spec claudeLine chunks [] "" [] hok rfl
    exact ⟨ds, by simpa [stream_claude] using h1⟩
  · obtain ⟨ds, _, h2⟩ := runChunks_spec ollamaLine chunks [] "" [] hok rfl
    exact h2
  · obtain ⟨ds, h1, _⟩ := runChunks_spec ollamaLine chunks [] "" [] hok rfl
    exact ⟨ds, by simpa [stream_ollama] using h1⟩

/-- Witness for `stream_truncated_done` on a one-chunk stream with one
fragment and no terminal marker. -/
theorem stream_truncated_done_witness :
    ((stream_openai [.ok sseTruncatedBytes]).result =
        .ok (deltaConcat (stream_openai [.ok sseTruncatedBytes]).events) ∧
      ∃ ds : List String, (stream_openai [.ok sseTruncatedBytes]).events =
        ds.map StreamEvent.delta ++ [StreamEvent.done]) ∧
    ((stream_claude [.ok sseTruncatedBytes]).result =
        .ok (deltaConcat (stream_claude [.ok sseTruncatedBytes]).events) ∧
      ∃ ds : List String, (stream_claude [.ok sseTruncatedBytes]).events =
        ds.map StreamEvent.delta ++ [StreamEvent.done]) ∧
    ((stream_ollama [.ok sseTruncatedBytes]).result =
        .ok (deltaConcat (stream_ollama [.ok sseTruncatedBytes]).events) ∧
      ∃ ds : List String, (stream_ollama [.ok sseTruncatedBytes]).events =
        ds.map StreamEvent.delta ++ [StreamEvent.done]) :=
  stream_truncated_done [.ok sseTruncatedBytes]
    (by decide) (by decide) (by decide) (by decide)

/-- C2 (refuted on the code): the same SSE byte stream, split at a chunk
boundary inside the two-byte UTF-8 character `é`, does not reconstruct
the same full text as the unsplit stream: each half of the character is
converted separately by `String::from_utf8_lossy` and becomes U+FFFD. -/
theorem stream_openai_split_utf8_counterexample :
    sseAccentBytes = sseAccentChunk1 ++ sseAccentChunk2 ∧
    (stream_openai [.ok sseAccentBytes]).result = .ok "é" ∧
    (stream_openai [.ok sseAccentChunk1, .ok sseAccentChunk2]).result =
      .ok "��" ∧
    ("é" : String) ≠ "��" :=
  ⟨by decide, by decide, by decide, by decide⟩

end PasteGo
